import Mathlib

/-!
Verification of `bin/s32imdbpy.py`, the script that bulk-loads the IMDb
compressed tab-separated dataset dumps into a SQL database.

The embedding below translates the script's functions into pure Lean
functions:

* lines of the (already gzip-decompressed, utf-8-decoded) stream are
  `String`s without their trailing newline (the script strips it anyway);
* `generate_content` becomes a function from the list of data lines to the
  list of yielded blocks;
* the external `DB_TRANSFORM` registry (defined in `imdb.parser.s3.utils`,
  which is not part of this tree) is a parameter: a map from table name to
  an ordered association list of column configurations, mirroring
  `DB_TRANSFORM.get(name, {})` / `DB_TRANSFORM.get(name) or {}`.  The
  registry is generic in the type `F` of transform functions: `Transf`
  (total functions, the pure value-mapping functions of the spec's data
  model) and `TransfE` (functions that may raise, modelled in `Except`);
* the database connection is an oracle `Nat → Option String` telling for
  each block index whether `connection.execute` raises (and with which
  message);
* the log lines emitted by `import_file` / `import_dir` are reified as a
  `LogEntry` list.
-/

namespace S32

/-- Constant `TSV_EXT = '.tsv.gz'` of the script. -/
def TSV_EXT : String := ".tsv.gz"

/-- Constant `BLOCK_SIZE = 10000`: how many entries to write to the database
at a time. -/
def BLOCK_SIZE : Nat := 10000

/-- The null sentinel `r'\N'`: a two-character literal, backslash then N. -/
def NULL_TOKEN : String := "\\N"

/-- The ASCII whitespace characters removed by Python's `str.strip()`
(space, tab, newline, carriage return, vertical tab, form feed).  Python
also strips some rarer Unicode whitespace; the IMDb dumps only contain the
ASCII ones, and every claim below depends only on `'\t'` and `'\n'` being
whitespace. -/
def pyWs (c : Char) : Bool :=
  c == ' ' || c == '\t' || c == '\n' || c == '\r' || c == '\x0b' || c == '\x0c'

/-- Python `str.strip()` on a list of characters: drop whitespace from both
ends. -/
def pyStripChars (l : List Char) : List Char :=
  ((l.dropWhile pyWs).reverse.dropWhile pyWs).reverse

/-- Python `str.split('\t')`: split on every tab.  As in Python, the result
always has one more element than the number of tabs; the empty string
splits to `[""]`. -/
def splitTabChars : List Char → List (List Char)
  | [] => [[]]
  | c :: cs =>
    if c = '\t' then [] :: splitTabChars cs
    else
      match splitTabChars cs with
      | [] => [[c]]
      | f :: fs => (c :: f) :: fs

/-- Line 62 of the script: `line.decode('utf-8').strip().split('\t')`
(decoding is modelled away: lines are already text). -/
def pyStripSplit (line : String) : List String :=
  (splitTabChars (pyStripChars line.data)).map String.mk

/-- A SQLAlchemy column type.  The script treats types opaquely (looked up
in the registry or defaulted to `sqlalchemy.UnicodeText`), so everything
that is not the default is represented by its name. -/
inductive ColType where
  | UnicodeText : ColType
  | named : String → ColType
deriving DecidableEq

/-- A total transform function, the `pure value-mapping function` of the
spec's data model.  Row values are `Option String` (`none` is Python's
`None`). -/
abbrev Transf : Type := Option String → Option String

/-- A transform function that may raise (spec 4.2: `any transform function
raising is not caught at this layer`): raising `e` is `Except.error e`. -/
abbrev TransfE : Type := Option String → Except String (Option String)

/-- One value of the `DB_TRANSFORM` registry: an optional `'type'` entry and
an optional `'transform'` entry, generic in the transform-function type. -/
structure ColConf (F : Type) where
  type? : Option ColType
  transform? : Option F

/-- The `DB_TRANSFORM` registry, viewed as a function from table name to the
ordered items of the per-table dict (`DB_TRANSFORM.get(name, {})`; a missing
table maps to `[]`). -/
abbrev Registry (F : Type) : Type := String → List (String × ColConf F)

/-- A row, i.e. the Python dict built for one data line: an association list
ordered by key insertion, with at most one entry per key, mapping a column
name to a value (`none` for SQL NULL). -/
abbrev Row : Type := List (String × Option String)

/-- A block of rows (`data` in the script). -/
abbrev Block : Type := List Row

/-- Python dict assignment `d[k] = v`: update the existing entry in place,
else append a new entry at the end. -/
def dictInsert (d : Row) (k : String) (v : Option String) : Row :=
  if d.any (fun p => p.1 == k) then
    d.map (fun p => if p.1 == k then (p.1, v) else p)
  else d ++ [(k, v)]

/-- Python dict lookup: `some value` when the key is present (`k in d`),
`none` otherwise. -/
def dictGet (d : Row) (k : String) : Option (Option String) :=
  match d.find? (fun p => p.1 == k) with
  | none => none
  | some p => some p.2

/-- Python `dict(pairs)`: insert every pair in order. -/
def dictOfPairs (ps : List (String × Option String)) : Row :=
  ps.foldl (fun d p => dictInsert d p.1 p.2) []

/-- The null-sentinel conversion of line 65: `x if x != r'\N' else None`. -/
def nullify (x : String) : Option String :=
  if x = NULL_TOKEN then none else some x

/-- Line 65 of the script:
`dict(zip(headers, [x if x != r'\N' else None for x in s_line]))`. -/
def rowOfFields (headers : List String) (fields : List String) : Row :=
  dictOfPairs (headers.zip (fields.map nullify))

/-- The body of the lines 58-60 loop: keep `(column, conf['transform'])`
when the configuration carries a `'transform'` entry. -/
def transfSel {F : Type} (p : String × ColConf F) : Option (String × F) :=
  match p.2.transform? with
  | some t => some (p.1, t)
  | none => none

/-- Lines 57-60 of the script: collect, in registry order, the columns of
this table that carry a `'transform'` entry. -/
def dataTransfOf {F : Type} (reg : Registry F) (tableName : String) :
    List (String × F) :=
  (reg tableName).filterMap transfSel

/-- Lines 66-69 of the script, with total transform functions:
`for key, tranf in data_transf.items(): if key not in info: continue;
info[key] = tranf(info[key])`. -/
def applyTransforms (dt : List (String × Transf)) (d : Row) : Row :=
  match dt with
  | [] => d
  | p :: rest =>
    match dictGet d p.1 with
    | none => applyTransforms rest d
    | some v => applyTransforms rest (dictInsert d p.1 (p.2 v))

/-- Lines 66-69 of the script with transform functions that may raise: the
first raise aborts the whole generator run. -/
def applyTransformsE (dt : List (String × TransfE)) (d : Row) :
    Except String Row :=
  match dt with
  | [] => Except.ok d
  | p :: rest =>
    match dictGet d p.1 with
    | none => applyTransformsE rest d
    | some v =>
      match p.2 v with
      | Except.error e => Except.error e
      | Except.ok w => applyTransformsE rest (dictInsert d p.1 w)

/-- The loop of lines 61-76 of `generate_content`: process the remaining
lines given the current buffer `data`, returning the list of yielded
blocks (pure-transform version). -/
def genLoop (headers : List String) (dt : List (String × Transf)) :
    List String → Block → List Block
  | [], data => if data.isEmpty then [] else [data]
  | line :: rest, data =>
    let s_line := pyStripSplit line
    if s_line.length ≠ headers.length then
      genLoop headers dt rest data
    else
      let row := applyTransforms dt (rowOfFields headers s_line)
      let data2 := data ++ [row]
      if BLOCK_SIZE ≤ data2.length then data2 :: genLoop headers dt rest []
      else genLoop headers dt rest data2

/-- Lines 43-76 of the script, `generate_content(fd, headers, table)`, with
pure transform functions: the list of blocks yielded for the given data
lines. -/
def generate_content (reg : Registry Transf) (lines : List String)
    (headers : List String) (tableName : String) : List Block :=
  genLoop headers (dataTransfOf reg tableName) lines []

/-- The loop of lines 61-76 with transforms that may raise.  The result is
the list of blocks the generator yields before any raise, paired with
`some (buffered, e)` when a transform raises `e` while `buffered` rows sat
in the not-yet-yielded buffer (those buffered rows are lost and no further
block is yielded), or `none` when the run completes. -/
def genLoopE (headers : List String) (dt : List (String × TransfE)) :
    List String → Block → List Block × Option (Nat × String)
  | [], data => (if data.isEmpty then [] else [data], none)
  | line :: rest, data =>
    let s_line := pyStripSplit line
    if s_line.length ≠ headers.length then
      genLoopE headers dt rest data
    else
      match applyTransformsE dt (rowOfFields headers s_line) with
      | Except.error e => ([], some (data.length, e))
      | Except.ok row =>
        let data2 := data ++ [row]
        if BLOCK_SIZE ≤ data2.length then
          let res := genLoopE headers dt rest []
          (data2 :: res.1, res.2)
        else genLoopE headers dt rest data2

/-- The raising-transform version of `generate_content`. -/
def generate_contentE (reg : Registry TransfE) (lines : List String)
    (headers : List String) (tableName : String) :
    List Block × Option (Nat × String) :=
  genLoopE headers (dataTransfOf reg tableName) lines []

/-- Embed a total transform as a never-raising one. -/
def liftTransf (t : Transf) : TransfE :=
  fun v => Except.ok (t v)

/-- Embed a registry of total transforms as a never-raising registry. -/
def liftReg (reg : Registry Transf) : Registry TransfE :=
  fun n => (reg n).map (fun p => (p.1, ColConf.mk p.2.type? (p.2.transform?.map liftTransf)))

/-- Test that `pat` is a prefix of the second list. -/
def leadsWith : List Char → List Char → Bool
  | [], _ => true
  | _ :: _, [] => false
  | p :: ps, c :: cs => p == c && leadsWith ps cs

/-- Scanner for Python `str.replace(old, new)`: scan left to right; at skip
count `0`, if `old` starts here emit `new` and skip the match (the head now,
the remaining `old.length - 1` characters via the counter), else keep the
character.  (Callers of the script only replace nonempty patterns.) -/
def replAux (old new : List Char) : List Char → Nat → List Char
  | [], _ => []
  | c :: cs, 0 =>
    if leadsWith old (c :: cs) then new ++ replAux old new cs (old.length - 1)
    else c :: replAux old new cs 0
  | _ :: cs, k + 1 => replAux old new cs k

/-- Python `s.replace(old, new)`: replace every non-overlapping occurrence,
left to right. -/
def pyReplace (s old new : List Char) : List Char :=
  replAux old new s 0

/-- Line 88 of the script:
`table_name = fn.replace(TSV_EXT, '').replace('.', '_')`. -/
def tableNameOf (fn : String) : String :=
  String.mk (pyReplace (pyReplace fn.data TSV_EXT.data []) ".".data "_".data)

/-- A `sqlalchemy.Column`: a name and a storage type. -/
structure ColumnSpec where
  name : String
  type : ColType
deriving DecidableEq

/-- A `sqlalchemy.Table`: the derived table name and the ordered columns. -/
structure SqlTable where
  name : String
  columns : List ColumnSpec
deriving DecidableEq

/-- Line 92 of the script: `col_info = table_map.get(header) or {}` (a
missing entry, like a present-but-empty dict, yields the empty
configuration). -/
def tableMapGet {F : Type} (tm : List (String × ColConf F)) (h : String) :
    ColConf F :=
  match tm.find? (fun p => p.1 == h) with
  | none => ColConf.mk none none
  | some p => p.2

/-- Lines 79-96 of the script, `build_table(fn, headers)`: one column per
header, in order, typed from the registry (`col_info.get('type') or
sqlalchemy.UnicodeText`: a missing or `None` type defaults to unbounded
text). -/
def build_table {F : Type} (reg : Registry F) (fn : String)
    (headers : List String) : SqlTable :=
  let table_name := tableNameOf fn
  let table_map := reg table_name
  let columns := headers.map (fun header =>
    ColumnSpec.mk header ((tableMapGet table_map header).type?.getD ColType.UnicodeText))
  SqlTable.mk table_name columns

/-- Python `os.path.basename`: the part after the last `'/'`. -/
def basename (fn : String) : String :=
  String.mk ((fn.data.reverse.takeWhile (fun c => c ≠ '/')).reverse)

/-- The log lines the script emits, reified. -/
inductive LogEntry where
  | beginFile : String → LogEntry
  | buildingTable : String → LogEntry
  | errorLost : Nat → String → LogEntry
  | endFile : String → Nat → LogEntry
  | skippingFile : String → LogEntry
deriving DecidableEq

/-- The observable outcome of `import_file`: the blocks whose insert
committed, the running row count, and the emitted log lines. -/
structure ImportResult where
  committed : List Block
  count : Nat
  logs : List LogEntry
deriving DecidableEq

/-- The `for block in generate_content(...)` loop of lines 117-119: insert
block after block (the oracle `insertErr` says whether `connection.execute`
raises at a given block index), accumulating the committed blocks and the
running count; stop at the first raise, remembering the length of the block
variable at that point and the error. -/
def insertLoop (insertErr : Nat → Option String) :
    List Block → Nat → Nat → List Block → List Block × Nat × Option (Nat × String)
  | [], _, count, committed => (committed, count, none)
  | b :: rest, idx, count, committed =>
    match insertErr idx with
    | some e => (committed, count, some (b.length, e))
    | none => insertLoop insertErr rest (idx + 1) (count + b.length) (committed ++ [b])

/-- Lines 99-122 of the script, `import_file(fn, engine)`.  The try/except
around the block loop catches a raise from either `connection.execute` (the
`insertErr` oracle) or from the generator itself (a raising transform,
surfacing as `gen.2`).  Note that the `block` local variable, whose length
is logged as `%d entries lost`, is `[]` before the first yield and keeps
the last yielded block afterwards — so when the generator itself raises,
the logged number is the length of the last successfully yielded block (0
if none), not the number of buffered rows that were lost. -/
def import_file (reg : Registry TransfE) (insertErr : Nat → Option String)
    (fn : String) (headerLine : String) (dataLines : List String) : ImportResult :=
  let headers := pyStripSplit headerLine
  let table := build_table reg (basename fn) headers
  let gen := generate_contentE reg dataLines headers table.name
  let res := insertLoop insertErr gen.1 0 0 []
  let errorLogs :=
    match res.2.2 with
    | some le => [LogEntry.errorLost le.1 le.2]
    | none =>
      match gen.2 with
      | some ge => [LogEntry.errorLost ((gen.1.getLast?.getD []).length) ge.2]
      | none => []
  ImportResult.mk res.1 res.2.1
    ([LogEntry.beginFile fn, LogEntry.buildingTable (basename fn)]
      ++ errorLogs ++ [LogEntry.endFile fn res.2.1])

/-- A directory entry as `import_dir` sees it: its name, whether it is a
regular file, and (when it is) the content of the stream it opens plus the
database behaviour while importing it. -/
structure DirEntry where
  name : String
  isFile : Bool
  headerLine : String
  dataLines : List String
  insertErr : Nat → Option String

/-- What `import_dir` does with one matching entry. -/
inductive DirOutcome where
  | imported : String → ImportResult → DirOutcome
  | skipped : String → DirOutcome
deriving DecidableEq

/-- The glob pattern `*.tsv.gz` of line 133: the name ends with the suffix
and (glob's hidden-file rule for `*`) does not start with a dot. -/
def globMatch (name : String) : Bool :=
  TSV_EXT.data.isSuffixOf name.data && !(name.data.head? == some '.')

/-- Lines 125-137 of the script, `import_dir(dir_name, engine)`: for every
entry matching the pattern, skip it (with a debug log) when it is not a
regular file, otherwise run `import_file` on it. -/
def import_dir (reg : Registry TransfE) (entries : List DirEntry) :
    List DirOutcome :=
  (entries.filter (fun e => globMatch e.name)).map (fun e =>
    if e.isFile then
      DirOutcome.imported e.name
        (import_file reg e.insertErr e.name e.headerLine e.dataLines)
    else DirOutcome.skipped e.name)

/-- Replace every dot by an underscore, character by character. -/
def dotsToUnderscores (l : List Char) : List Char :=
  l.map (fun c => if c = '.' then '_' else c)

/-- Modelled from the amended claim C6: remove every non-overlapping
occurrence of `.tsv.gz`, scanning left to right. -/
def removeTsvOccs : List Char → List Char
  | [] => []
  | c :: cs =>
    if leadsWith TSV_EXT.data (c :: cs) then
      removeTsvOccs (cs.drop (TSV_EXT.data.length - 1))
    else c :: removeTsvOccs cs
termination_by l => l.length
decreasing_by
  · simp only [List.length_drop, List.length_cons]
    omega
  · simp only [List.length_cons]
    omega

/-- Modelled from the claim words of C6: the file name with the
compressed-TSV suffix `.tsv.gz` removed (when present) and every remaining
literal dot replaced by an underscore. -/
def claimTableName (fn : String) : String :=
  let base :=
    if leadsWith TSV_EXT.data.reverse fn.data.reverse then
      fn.data.take (fn.data.length - TSV_EXT.data.length)
    else fn.data
  String.mk (dotsToUnderscores base)

/-- What one data line contributes, matching the body of `genLoop`:
`none` for a dropped (field-count-mismatched) line, the finished row
otherwise. -/
def lineRow (headers : List String) (dt : List (String × Transf))
    (line : String) : Option Row :=
  if (pyStripSplit line).length = headers.length then
    some (applyTransforms dt (rowOfFields headers (pyStripSplit line)))
  else none

/-! ### Lemmas about the dict model -/

theorem dictGet_cons_pos {p : String × Option String} {d : Row} {k : String}
    (h : p.1 = k) : dictGet (p :: d) k = some p.2 := by
  simp [dictGet, List.find?, h]

theorem dictGet_cons_neg {p : String × Option String} {d : Row} {k : String}
    (h : p.1 ≠ k) : dictGet (p :: d) k = dictGet d k := by
  simp only [dictGet, List.find?]
  have hb : (p.1 == k) = false := by simp [h]
  rw [hb]

theorem dictInsert_eq_map {d : Row} {k : String} (v : Option String)
    (h : (d.any (fun p => p.1 == k)) = true) :
    dictInsert d k v = d.map (fun p => if p.1 == k then (p.1, v) else p) := by
  simp only [dictInsert, h, if_true]

theorem dictInsert_eq_append {d : Row} {k : String} (v : Option String)
    (h : (d.any (fun p => p.1 == k)) = false) :
    dictInsert d k v = d ++ [(k, v)] := by
  simp only [dictInsert, h]
  rfl

theorem dictInsert_cons_ne {p : String × Option String} {d : Row} {k : String}
    (h : p.1 ≠ k) (v : Option String) :
    dictInsert (p :: d) k v = p :: dictInsert d k v := by
  have hb : (p.1 == k) = false := by simp [h]
  cases h2 : (d.any (fun q => q.1 == k)) with
  | true =>
    have hall : ((p :: d).any (fun q => q.1 == k)) = true := by
      simp [List.any_cons, h2]
    rw [dictInsert_eq_map v hall, dictInsert_eq_map v h2, List.map_cons, hb]
    simp
  | false =>
    have hall : ((p :: d).any (fun q => q.1 == k)) = false := by
      simp only [List.any_cons, hb, h2, Bool.or_self]
    rw [dictInsert_eq_append v hall, dictInsert_eq_append v h2, List.cons_append]

theorem dictGet_dictInsert_self (d : Row) (k : String) (v : Option String) :
    dictGet (dictInsert d k v) k = some v := by
  induction d with
  | nil =>
    rw [dictInsert_eq_append v (by simp)]
    simp [dictGet, List.find?]
  | cons p d ih =>
    by_cases hp : p.1 = k
    · have hall : ((p :: d).any (fun q => q.1 == k)) = true := by
        simp [List.any_cons, hp]
      rw [dictInsert_eq_map v hall, List.map_cons]
      have hhead : (if p.1 == k then (p.1, v) else p) = (p.1, v) := by simp [hp]
      rw [hhead, dictGet_cons_pos (show ((p.1, v) : String × Option String).1 = k from hp)]
    · rw [dictInsert_cons_ne hp, dictGet_cons_neg hp]
      exact ih

theorem dictGet_map_update {k k' : String} (hk : k' ≠ k)
    (v : Option String) (d : Row) :
    dictGet (d.map (fun q => if q.1 == k then (q.1, v) else q)) k' = dictGet d k' := by
  induction d with
  | nil => rfl
  | cons q d ih =>
    have hfst : (if q.1 == k then (q.1, v) else q).1 = q.1 := by
      by_cases hqk : q.1 = k <;> simp [hqk]
    by_cases hq : q.1 = k'
    · have hqk : q.1 ≠ k := by rw [hq]; exact hk
      have hhead : (if q.1 == k then (q.1, v) else q) = q := by simp [hqk]
      rw [List.map_cons, hhead, dictGet_cons_pos hq, dictGet_cons_pos hq]
    · rw [List.map_cons, dictGet_cons_neg (by rw [hfst]; exact hq), dictGet_cons_neg hq]
      exact ih

theorem dictGet_append_single {k k' : String} (hk : k ≠ k')
    (v : Option String) (d : Row) :
    dictGet (d ++ [(k, v)]) k' = dictGet d k' := by
  induction d with
  | nil =>
    rw [List.nil_append, dictGet_cons_neg hk]
  | cons q d ih =>
    by_cases hq : q.1 = k'
    · rw [List.cons_append, dictGet_cons_pos hq, dictGet_cons_pos hq]
    · rw [List.cons_append, dictGet_cons_neg hq, dictGet_cons_neg hq]
      exact ih

theorem dictGet_dictInsert_ne {k k' : String} (hk : k' ≠ k)
    (d : Row) (v : Option String) :
    dictGet (dictInsert d k v) k' = dictGet d k' := by
  cases h2 : (d.any (fun q => q.1 == k)) with
  | true => rw [dictInsert_eq_map v h2, dictGet_map_update hk]
  | false => rw [dictInsert_eq_append v h2, dictGet_append_single (Ne.symm hk)]

theorem dictGet_foldl_not_mem {k : String} :
    ∀ (ps : List (String × Option String)) (d : Row),
      (∀ p ∈ ps, p.1 ≠ k) →
      dictGet (ps.foldl (fun d p => dictInsert d p.1 p.2) d) k = dictGet d k := by
  intro ps
  induction ps with
  | nil => intro d _; rfl
  | cons p ps ih =>
    intro d h
    rw [List.foldl_cons]
    rw [ih _ (fun q hq => h q (List.mem_cons_of_mem _ hq))]
    exact dictGet_dictInsert_ne (Ne.symm (h p (List.mem_cons_self _ _))) _ _

theorem dictGet_foldl_mem {k : String} {v : Option String} :
    ∀ (ps : List (String × Option String)) (d : Row),
      (ps.map Prod.fst).Nodup → (k, v) ∈ ps →
      dictGet (ps.foldl (fun d p => dictInsert d p.1 p.2) d) k = some v := by
  intro ps
  induction ps with
  | nil => intro d _ hmem; simp at hmem
  | cons p ps ih =>
    intro d hnd hmem
    rw [List.map_cons, List.nodup_cons] at hnd
    rcases List.mem_cons.mp hmem with hp | hp
    · subst hp
      have hk_not : k ∉ ps.map Prod.fst := by simpa using hnd.1
      rw [List.foldl_cons]
      rw [dictGet_foldl_not_mem ps (dictInsert d k v)
        (fun q hq hqk => hk_not (by rw [← hqk]; exact List.mem_map_of_mem Prod.fst hq))]
      exact dictGet_dictInsert_self d k v
    · rw [List.foldl_cons]
      exact ih _ hnd.2 hp

theorem get_mem_zip {α β : Type} :
    ∀ (as : List α) (bs : List β) (i : Nat) (h1 : i < as.length) (h2 : i < bs.length),
      (as.get ⟨i, h1⟩, bs.get ⟨i, h2⟩) ∈ as.zip bs := by
  intro as
  induction as with
  | nil => intro bs i h1; simp at h1
  | cons a as ih =>
    intro bs i h1 h2
    cases bs with
    | nil => simp at h2
    | cons b bs =>
      cases i with
      | zero => simp [List.zip_cons_cons]
      | succ n =>
        rw [List.zip_cons_cons]
        exact List.mem_cons_of_mem _ (ih bs n (by simpa using h1) (by simpa using h2))

theorem dictGet_rowOfFields (headers fields : List String) (i : Nat)
    (hnd : headers.Nodup) (hlen : fields.length = headers.length)
    (hi : i < headers.length) (hif : i < fields.length) :
    dictGet (rowOfFields headers fields) (headers.get ⟨i, hi⟩)
      = some (nullify (fields.get ⟨i, hif⟩)) := by
  unfold rowOfFields dictOfPairs
  have hvlen : (fields.map nullify).length = headers.length := by
    simpa using hlen
  have hkeys : (headers.zip (fields.map nullify)).map Prod.fst = headers :=
    List.map_fst_zip _ _ (by omega)
  have hmem : (headers.get ⟨i, hi⟩, (fields.map nullify).get ⟨i, by omega⟩)
      ∈ headers.zip (fields.map nullify) :=
    get_mem_zip headers (fields.map nullify) i hi (by omega)
  have hget : (fields.map nullify).get ⟨i, by omega⟩ = nullify (fields.get ⟨i, hif⟩) := by
    simp
  rw [← hget]
  exact dictGet_foldl_mem _ _ (by rw [hkeys]; exact hnd) hmem

/-! ### Lemmas about the row-block generator -/

theorem genLoop_nil (headers : List String) (dt : List (String × Transf))
    (data : Block) :
    genLoop headers dt [] data = if data.isEmpty then [] else [data] := rfl

theorem genLoop_cons (headers : List String) (dt : List (String × Transf))
    (line : String) (rest : List String) (data : Block) :
    genLoop headers dt (line :: rest) data =
      if (pyStripSplit line).length ≠ headers.length then
        genLoop headers dt rest data
      else if BLOCK_SIZE ≤
          (data ++ [applyTransforms dt (rowOfFields headers (pyStripSplit line))]).length then
        (data ++ [applyTransforms dt (rowOfFields headers (pyStripSplit line))])
          :: genLoop headers dt rest []
      else
        genLoop headers dt rest
          (data ++ [applyTransforms dt (rowOfFields headers (pyStripSplit line))]) := rfl

theorem applyTransforms_cons (p : String × Transf) (rest : List (String × Transf))
    (d : Row) :
    applyTransforms (p :: rest) d =
      match dictGet d p.1 with
      | none => applyTransforms rest d
      | some v => applyTransforms rest (dictInsert d p.1 (p.2 v)) := rfl

theorem lineRow_eq_some {headers : List String} {dt : List (String × Transf)}
    {line : String} (h : (pyStripSplit line).length = headers.length) :
    lineRow headers dt line
      = some (applyTransforms dt (rowOfFields headers (pyStripSplit line))) := by
  simp [lineRow, h]

theorem lineRow_eq_none {headers : List String} {dt : List (String × Transf)}
    {line : String} (h : ¬(pyStripSplit line).length = headers.length) :
    lineRow headers dt line = none := by
  simp [lineRow, h]

theorem genLoop_join (headers : List String) (dt : List (String × Transf)) :
    ∀ (lines : List String) (data : Block),
      (genLoop headers dt lines data).flatten
        = data ++ lines.filterMap (lineRow headers dt) := by
  intro lines
  induction lines with
  | nil =>
    intro data
    cases data with
    | nil => simp [genLoop_nil]
    | cons r rs => simp [genLoop_nil]
  | cons line rest ih =>
    intro data
    rw [genLoop_cons]
    by_cases h : (pyStripSplit line).length = headers.length
    · rw [if_neg (fun hne => hne h)]
      by_cases hb : BLOCK_SIZE ≤
          (data ++ [applyTransforms dt (rowOfFields headers (pyStripSplit line))]).length
      · rw [if_pos hb]
        rw [List.flatten_cons, ih []]
        rw [List.filterMap_cons_some (lineRow_eq_some h)]
        simp
      · rw [if_neg hb, ih]
        rw [List.filterMap_cons_some (lineRow_eq_some h)]
        simp
    · rw [if_pos h, ih]
      rw [List.filterMap_cons_none (lineRow_eq_none h)]

theorem length_filterMap_lineRow (headers : List String)
    (dt : List (String × Transf)) :
    ∀ lines : List String,
      (lines.filterMap (lineRow headers dt)).length
        = (lines.filter (fun l => (pyStripSplit l).length == headers.length)).length := by
  intro lines
  induction lines with
  | nil => rfl
  | cons line rest ih =>
    by_cases h : (pyStripSplit line).length = headers.length
    · rw [List.filterMap_cons_some (lineRow_eq_some h)]
      rw [List.filter_cons_of_pos (by simpa using h)]
      simp [ih]
    · rw [List.filterMap_cons_none (lineRow_eq_none h)]
      rw [List.filter_cons_of_neg (by simpa using h)]
      exact ih

/-- Claim C1: for every input stream, the total number of rows across all
blocks yielded by `generate_content` equals the number of data lines whose
field count (after stripping and splitting on tab) matches the header
count. -/
theorem claim_C1 (reg : Registry Transf) (lines headers : List String)
    (tableName : String) :
    ((generate_content reg lines headers tableName).map List.length).sum
      = (lines.filter (fun l => (pyStripSplit l).length == headers.length)).length := by
  rw [generate_content, ← List.length_flatten, genLoop_join, List.nil_append,
    length_filterMap_lineRow]

theorem mem_dropLast_cons {α : Type} {x b : α} {l : List α}
    (hb : b ∈ (x :: l).dropLast) : b = x ∨ b ∈ l.dropLast := by
  cases l with
  | nil => simp [List.dropLast] at hb
  | cons y ys =>
    rw [List.dropLast_cons₂] at hb
    rcases List.mem_cons.mp hb with h | h
    · exact Or.inl h
    · exact Or.inr h

theorem genLoop_sizes (headers : List String) (dt : List (String × Transf)) :
    ∀ (lines : List String) (data : Block), data.length < BLOCK_SIZE →
      (∀ b ∈ (genLoop headers dt lines data).dropLast, b.length = BLOCK_SIZE) ∧
      (∀ b ∈ genLoop headers dt lines data, 1 ≤ b.length ∧ b.length ≤ BLOCK_SIZE) := by
  intro lines
  induction lines with
  | nil =>
    intro data hlt
    cases data with
    | nil => constructor <;> simp [genLoop_nil]
    | cons r rs =>
      rw [genLoop_nil]
      constructor
      · simp
      · intro b hb
        simp only [List.isEmpty_cons, Bool.false_eq_true, if_false, List.mem_singleton] at hb
        subst hb
        exact ⟨by simp, Nat.le_of_lt hlt⟩
  | cons line rest ih =>
    intro data hlt
    rw [genLoop_cons]
    by_cases h : (pyStripSplit line).length = headers.length
    · rw [if_neg (fun hne => hne h)]
      by_cases hb : BLOCK_SIZE ≤
          (data ++ [applyTransforms dt (rowOfFields headers (pyStripSplit line))]).length
      · rw [if_pos hb]
        have hlen : (data ++ [applyTransforms dt (rowOfFields headers (pyStripSplit line))]).length
            = BLOCK_SIZE := by
          simp only [List.length_append, List.length_singleton] at hb ⊢
          omega
        have hrest := ih [] (by simp [BLOCK_SIZE])
        constructor
        · intro b hbmem
          rcases mem_dropLast_cons hbmem with rfl | hmem
          · exact hlen
          · exact hrest.1 b hmem
        · intro b hbmem
          rcases List.mem_cons.mp hbmem with rfl | hmem
          · rw [hlen]
            exact ⟨by simp [BLOCK_SIZE], Nat.le_refl _⟩
          · exact hrest.2 b hmem
      · rw [if_neg hb]
        refine ih _ ?_
        simp only [List.length_append, List.length_singleton] at hb ⊢
        omega
    · rw [if_pos h]
      exact ih data hlt

/-- Claim C2: every block yielded by `generate_content` except possibly the
last has exactly `BLOCK_SIZE` rows; every block (in particular the last)
has between 1 and `BLOCK_SIZE` rows, so an empty block is never yielded. -/
theorem claim_C2 (reg : Registry Transf) (lines headers : List String)
    (tableName : String) :
    ((generate_content reg lines headers tableName).dropLast.all
        (fun b => b.length == BLOCK_SIZE)) = true ∧
    ((generate_content reg lines headers tableName).all
        (fun b => decide (1 ≤ b.length) && decide (b.length ≤ BLOCK_SIZE))) = true := by
  have h := genLoop_sizes headers (dataTransfOf reg tableName) lines []
    (by simp [BLOCK_SIZE])
  rw [generate_content]
  constructor
  · rw [List.all_eq_true]
    intro b hb
    simpa using h.1 b hb
  · rw [List.all_eq_true]
    intro b hb
    have h2 := h.2 b hb
    simp [h2.1, h2.2]

theorem genLoop_filter (headers : List String) (dt : List (String × Transf)) :
    ∀ (lines : List String) (data : Block),
      genLoop headers dt
          (lines.filter (fun l => (pyStripSplit l).length == headers.length)) data
        = genLoop headers dt lines data := by
  intro lines
  induction lines with
  | nil => intro data; rfl
  | cons line rest ih =>
    intro data
    by_cases h : (pyStripSplit line).length = headers.length
    · rw [List.filter_cons_of_pos (by simpa using h)]
      rw [genLoop_cons, genLoop_cons]
      have hcond : ¬((pyStripSplit line).length ≠ headers.length) := fun hne => hne h
      rw [if_neg hcond, if_neg hcond]
      by_cases hb : BLOCK_SIZE ≤
          (data ++ [applyTransforms dt (rowOfFields headers (pyStripSplit line))]).length
      · rw [if_pos hb, if_pos hb, ih]
      · rw [if_neg hb, if_neg hb, ih]
    · rw [List.filter_cons_of_neg (by simpa using h)]
      rw [ih, genLoop_cons, if_pos h]

/-- Claim C4: a data line whose field count differs from the header count
never contributes a row to any yielded block: deleting every mismatched
line from the stream leaves the yielded blocks unchanged (the line is
dropped silently and processing continues with the next line; no error
value exists, since `generate_content` is total). -/
theorem claim_C4 (reg : Registry Transf) (lines headers : List String)
    (tableName : String) :
    generate_content reg
        (lines.filter (fun l => (pyStripSplit l).length == headers.length))
        headers tableName
      = generate_content reg lines headers tableName := by
  rw [generate_content, generate_content, genLoop_filter]

/-! ### Lemmas about the per-column transforms -/

theorem applyTransforms_not_mem {col : String} :
    ∀ (dt : List (String × Transf)) (d : Row), (∀ p ∈ dt, p.1 ≠ col) →
      dictGet (applyTransforms dt d) col = dictGet d col := by
  intro dt
  induction dt with
  | nil => intro d _; rfl
  | cons p rest ih =>
    intro d h
    have hp : p.1 ≠ col := h p (List.mem_cons_self _ _)
    have hrest : ∀ q ∈ rest, q.1 ≠ col :=
      fun q hq => h q (List.mem_cons_of_mem _ hq)
    rw [applyTransforms_cons]
    cases hg : dictGet d p.1 with
    | none => exact ih d hrest
    | some v =>
      rw [ih _ hrest]
      exact dictGet_dictInsert_ne (Ne.symm hp) _ _

theorem dictGet_applyTransforms {col : String} {t : Transf} :
    ∀ (dt : List (String × Transf)) (d : Row),
      (dt.map Prod.fst).Nodup → (col, t) ∈ dt →
      dictGet (applyTransforms dt d) col = (dictGet d col).map t := by
  intro dt
  induction dt with
  | nil => intro d _ hmem; simp at hmem
  | cons p rest ih =>
    intro d hnd hmem
    rw [List.map_cons, List.nodup_cons] at hnd
    by_cases hp : p.1 = col
    · have hcr : col ∉ rest.map Prod.fst := by
        rw [← hp]
        exact hnd.1
      have hpt : p = (col, t) := by
        rcases List.mem_cons.mp hmem with hh | hh
        · exact hh.symm
        · exact absurd (List.mem_map_of_mem Prod.fst hh) hcr
      subst hpt
      have hrest : ∀ q ∈ rest, q.1 ≠ col :=
        fun q hq hqc => hcr (hqc ▸ List.mem_map_of_mem Prod.fst hq)
      rw [applyTransforms_cons]
      cases hg : dictGet d col with
      | none =>
        rw [applyTransforms_not_mem rest d hrest, hg]
        rfl
      | some v =>
        rw [applyTransforms_not_mem rest _ hrest, dictGet_dictInsert_self]
        rfl
    · have hmem2 : (col, t) ∈ rest := by
        rcases List.mem_cons.mp hmem with hh | hh
        · exact absurd (congrArg Prod.fst hh).symm hp
        · exact hh
      rw [applyTransforms_cons]
      cases hg : dictGet d p.1 with
      | none => exact ih d hnd.2 hmem2
      | some v =>
        rw [ih _ hnd.2 hmem2, dictGet_dictInsert_ne (Ne.symm hp)]

theorem transfSel_eq_some {F : Type} {p : String × ColConf F} {t : F}
    (ht : p.2.transform? = some t) : transfSel p = some (p.1, t) := by
  simp [transfSel, ht]

theorem transfSel_eq_none {F : Type} {p : String × ColConf F}
    (ht : p.2.transform? = none) : transfSel p = none := by
  simp [transfSel, ht]

theorem keys_filterMap_transform {F : Type} :
    ∀ l : List (String × ColConf F),
      ((l.filterMap transfSel).map Prod.fst).Sublist (l.map Prod.fst) := by
  intro l
  induction l with
  | nil => simp
  | cons p l ih =>
    cases ht : p.2.transform? with
    | none =>
      rw [List.filterMap_cons_none (transfSel_eq_none ht)]
      exact ih.cons p.1
    | some t =>
      rw [List.filterMap_cons_some (transfSel_eq_some ht), List.map_cons,
        List.map_cons]
      exact ih.cons₂ p.1

theorem dataTransfOf_keys_nodup {F : Type} (reg : Registry F) (tn : String)
    (h : ((reg tn).map Prod.fst).Nodup) :
    ((dataTransfOf reg tn).map Prod.fst).Nodup :=
  (keys_filterMap_transform (reg tn)).nodup h

theorem mem_dataTransfOf {F : Type} {reg : Registry F} {tn col : String} {t : F}
    {conf : ColConf F} (hmem : (col, conf) ∈ reg tn)
    (ht : conf.transform? = some t) :
    (col, t) ∈ dataTransfOf reg tn := by
  unfold dataTransfOf
  exact List.mem_filterMap.mpr ⟨(col, conf), hmem, transfSel_eq_some ht⟩

/-- Claim C5: for every table with a transform registered for column `col`
(the registry's per-table keys are unique, as Python dict keys are), every
row emitted by `generate_content` comes from a field-count-matching line,
and its value at `col` is the transform applied to the value the zip step
produced for `col` — the application being skipped exactly when `col` is
absent from the row (`Option.map` sends an absent lookup to an absent
lookup). -/
theorem claim_C5 (reg : Registry Transf) (lines headers : List String)
    (tn col : String) (t : Transf) (conf : ColConf Transf)
    (hnd : ((reg tn).map Prod.fst).Nodup)
    (hmem : (col, conf) ∈ reg tn) (ht : conf.transform? = some t) :
    ∀ row ∈ (generate_content reg lines headers tn).flatten,
      ∃ fields : List String, fields.length = headers.length ∧
        row = applyTransforms (dataTransfOf reg tn) (rowOfFields headers fields) ∧
        dictGet row col = (dictGet (rowOfFields headers fields) col).map t := by
  intro row hrow
  rw [generate_content, genLoop_join, List.nil_append] at hrow
  rcases List.mem_filterMap.mp hrow with ⟨line, hline, hrow2⟩
  by_cases h : (pyStripSplit line).length = headers.length
  · rw [lineRow_eq_some h] at hrow2
    have hroweq : row = applyTransforms (dataTransfOf reg tn)
        (rowOfFields headers (pyStripSplit line)) := (Option.some.inj hrow2).symm
    refine ⟨pyStripSplit line, h, hroweq, ?_⟩
    rw [hroweq]
    exact dictGet_applyTransforms _ _ (dataTransfOf_keys_nodup reg tn hnd)
      (mem_dataTransfOf hmem ht)
  · rw [lineRow_eq_none h] at hrow2
    exact absurd hrow2 (by simp)

/-- The registry used by the C5 witness: table `people` transforms column
`name` by the constant function. -/
def c5reg : Registry Transf := fun n =>
  if n = "people" then
    [("name", ColConf.mk none (some (fun _ => some "X")))]
  else []

theorem claim_C5_witness :
    ∃ fields : List String, fields.length = (["id", "name"] : List String).length ∧
      ([("id", some "1"), ("name", some "X")] : Row)
        = applyTransforms (dataTransfOf c5reg "people")
            (rowOfFields ["id", "name"] fields) ∧
      dictGet ([("id", some "1"), ("name", some "X")] : Row) "name"
        = (dictGet (rowOfFields ["id", "name"] fields) "name").map
            (fun _ => some "X") :=
  claim_C5 c5reg ["1\tAlice"] ["id", "name"] "people" "name" (fun _ => some "X")
    (ColConf.mk none (some (fun _ => some "X")))
    (by simp [c5reg]) (by simp [c5reg]) rfl
    [("id", some "1"), ("name", some "X")] (by decide)

/-- Claim C3: in the row mapping built at line 65 for a data line whose
field count matches the header count (headers unique, as assumed by the
spec), a field exactly equal to the two-character sentinel `\N` is mapped
to the absent value `none`, any other field — in particular the empty
string — is kept as itself, and the absent value is distinct from the
empty-string value. -/
theorem claim_C3 (headers fields : List String) (i : Nat)
    (hnd : headers.Nodup) (hlen : fields.length = headers.length)
    (hi : i < headers.length) (hif : i < fields.length) :
    (fields.get ⟨i, hif⟩ = NULL_TOKEN →
       dictGet (rowOfFields headers fields) (headers.get ⟨i, hi⟩) = some none) ∧
    (fields.get ⟨i, hif⟩ ≠ NULL_TOKEN →
       dictGet (rowOfFields headers fields) (headers.get ⟨i, hi⟩)
         = some (some (fields.get ⟨i, hif⟩))) ∧
    (some (none : Option String) ≠ some (some "")) := by
  have h := dictGet_rowOfFields headers fields i hnd hlen hi hif
  refine ⟨?_, ?_, by simp⟩
  · intro hN
    rw [h]
    simp only [nullify]
    rw [if_pos hN]
  · intro hN
    rw [h]
    simp only [nullify]
    rw [if_neg hN]

theorem claim_C3_witness :
    dictGet (rowOfFields ["id", "name"] ["", "\\N"]) "name" = some none ∧
    dictGet (rowOfFields ["id", "name"] ["", "\\N"]) "id" = some (some "") :=
  ⟨(claim_C3 ["id", "name"] ["", "\\N"] 1 (by decide) (by decide) (by decide)
      (by decide)).1 (by decide),
   (claim_C3 ["id", "name"] ["", "\\N"] 0 (by decide) (by decide) (by decide)
      (by decide)).2.1 (by decide)⟩

/-! ### Schema builder -/

/-- Claim C9: `build_table` produces exactly one column per header, in
header order; the column at index `i` is named after header `i` and typed
by the registry's declared type for `(table name, header)` when present,
defaulting to `UnicodeText`; an empty header list yields zero columns. -/
theorem claim_C9 {F : Type} (reg : Registry F) (fn : String)
    (headers : List String) :
    ((build_table reg fn headers).columns.length = headers.length) ∧
    (∀ i, ∀ hi : i < headers.length,
      (build_table reg fn headers).columns[i]? =
        some (ColumnSpec.mk (headers.get ⟨i, hi⟩)
          ((tableMapGet (reg (tableNameOf fn)) (headers.get ⟨i, hi⟩)).type?.getD
            ColType.UnicodeText))) ∧
    (headers = [] → (build_table reg fn headers).columns = []) := by
  refine ⟨by simp [build_table], ?_, ?_⟩
  · intro i hi
    simp only [build_table]
    rw [List.getElem?_map, List.getElem?_eq_getElem hi]
    simp
  · intro h
    subst h
    rfl

/-- The registry used by the C9 witness: table `movies` declares an integer
type for column `id`. -/
def c9reg : Registry TransfE := fun n =>
  if n = "movies" then [("id", ColConf.mk (some (ColType.named "Integer")) none)]
  else []

theorem claim_C9_witness :
    (build_table c9reg "movies.tsv.gz" ["id", "title"]).columns[0]? =
      some (ColumnSpec.mk "id"
        ((tableMapGet (c9reg (tableNameOf "movies.tsv.gz")) "id").type?.getD
          ColType.UnicodeText)) :=
  (claim_C9 c9reg "movies.tsv.gz" ["id", "title"]).2.1 0 (by decide)

/-! ### Table-name derivation (claim C6) -/

theorem tsv_data_eq : TSV_EXT.data = ['.', 't', 's', 'v', '.', 'g', 'z'] := rfl

theorem dot_data_eq : ".".data = ['.'] := rfl

theorem underscore_data_eq : "_".data = ['_'] := rfl

theorem replAux_drop (old new : List Char) :
    ∀ (cs : List Char) (k : Nat),
      replAux old new cs k = replAux old new (cs.drop k) 0 := by
  intro cs
  induction cs with
  | nil => intro k; cases k <;> rfl
  | cons c cs ih =>
    intro k
    cases k with
    | zero => rfl
    | succ n =>
      rw [List.drop_succ_cons]
      exact ih n

theorem replAux_tsv_eq_removeTsvOccs :
    ∀ (n : Nat) (l : List Char), l.length ≤ n →
      replAux TSV_EXT.data [] l 0 = removeTsvOccs l := by
  intro n
  induction n with
  | zero =>
    intro l hl
    have hnil : l = [] := List.eq_nil_of_length_eq_zero (Nat.le_zero.mp hl)
    subst hnil
    rw [removeTsvOccs]
    rfl
  | succ n ih =>
    intro l hl
    cases l with
    | nil =>
      rw [removeTsvOccs]
      rfl
    | cons c cs =>
      by_cases h : leadsWith TSV_EXT.data (c :: cs) = true
      · have e1 : replAux TSV_EXT.data [] (c :: cs) 0
            = replAux TSV_EXT.data [] (cs.drop (TSV_EXT.data.length - 1)) 0 := by
          simp only [replAux, h, if_true, List.nil_append]
          rw [replAux_drop]
        have e2 : removeTsvOccs (c :: cs)
            = removeTsvOccs (cs.drop (TSV_EXT.data.length - 1)) := by
          rw [removeTsvOccs, if_pos h]
        rw [e1, e2]
        apply ih
        rw [List.length_drop]
        simp only [List.length_cons] at hl
        omega
      · have hb : leadsWith TSV_EXT.data (c :: cs) = false :=
          Bool.eq_false_iff.mpr h
        have e1 : replAux TSV_EXT.data [] (c :: cs) 0
            = c :: replAux TSV_EXT.data [] cs 0 := by
          simp only [replAux, hb, Bool.false_eq_true, if_false]
        have e2 : removeTsvOccs (c :: cs) = c :: removeTsvOccs cs := by
          rw [removeTsvOccs, if_neg (by rw [hb]; simp)]
        rw [e1, e2]
        rw [ih cs (by simp only [List.length_cons] at hl; omega)]

theorem replAux_dot :
    ∀ l : List Char, replAux ".".data "_".data l 0 = dotsToUnderscores l := by
  intro l
  induction l with
  | nil => rfl
  | cons c cs ih =>
    by_cases h : c = '.'
    · subst h
      have hcond : leadsWith ".".data ('.' :: cs) = true := by
        rw [dot_data_eq]
        simp [leadsWith]
      have e1 : replAux ".".data "_".data ('.' :: cs) 0
          = '_' :: replAux ".".data "_".data cs 0 := by
        simp only [replAux, hcond, if_true]
        rfl
      rw [e1, ih]
      simp [dotsToUnderscores]
    · have hcond : leadsWith ".".data (c :: cs) = false := by
        rw [dot_data_eq]
        simp [leadsWith, Ne.symm h]
      have e1 : replAux ".".data "_".data (c :: cs) 0
          = c :: replAux ".".data "_".data cs 0 := by
        simp only [replAux, hcond, Bool.false_eq_true, if_false]
      rw [e1, ih]
      simp [dotsToUnderscores, h]

/-- Claim C6 counterexample: the script removes EVERY occurrence of
`.tsv.gz` from the file name, not only the suffix, so on a name where
`.tsv.gz` also occurs in the middle the claimed suffix-only rule disagrees
with the code: the code derives `ab`, the claim derives `a_tsv_gzb`. -/
theorem claim_C6_counterexample :
    tableNameOf "a.tsv.gzb.tsv.gz" ≠ claimTableName "a.tsv.gzb.tsv.gz" := by
  decide

/-- Claim C6 (amended): the derived table name equals the file name with
every non-overlapping occurrence of `.tsv.gz` removed (scanning left to
right), and every remaining literal dot replaced with an underscore; in
particular the derived table name for file `title_basics.tsv.gz` is
`title_basics`. -/
theorem claim_C6 (fn : String) :
    tableNameOf fn = String.mk (dotsToUnderscores (removeTsvOccs fn.data)) ∧
    tableNameOf "title_basics.tsv.gz" = "title_basics" := by
  constructor
  · rw [tableNameOf, pyReplace, pyReplace]
    rw [replAux_tsv_eq_removeTsvOccs fn.data.length fn.data (Nat.le_refl _)]
    rw [replAux_dot]
  · decide

/-! ### Stripping of trailing tabs (claim C10) -/

theorem splitTabChars_ne_nil : ∀ l : List Char, splitTabChars l ≠ [] := by
  intro l
  induction l with
  | nil => simp [splitTabChars]
  | cons c cs ih =>
    by_cases h : c = '\t'
    · simp [splitTabChars, h]
    · simp only [splitTabChars, h, if_false]
      cases hs : splitTabChars cs with
      | nil => simp
      | cons f fs => simp

theorem splitTabChars_cons_tab (cs : List Char) :
    splitTabChars ('\t' :: cs) = [] :: splitTabChars cs := by
  simp [splitTabChars]

theorem splitTabChars_cons_other {c : Char} (h : c ≠ '\t') (cs : List Char) :
    splitTabChars (c :: cs) =
      match splitTabChars cs with
      | [] => [[c]]
      | f :: fs => (c :: f) :: fs := by
  simp [splitTabChars, h]

theorem splitTabChars_length :
    ∀ l : List Char, (splitTabChars l).length = l.count '\t' + 1 := by
  intro l
  induction l with
  | nil => rfl
  | cons c cs ih =>
    by_cases h : c = '\t'
    · subst h
      rw [splitTabChars_cons_tab]
      simp [ih, List.count_cons]
    · rw [splitTabChars_cons_other h]
      cases hs : splitTabChars cs with
      | nil => exact absurd hs (splitTabChars_ne_nil cs)
      | cons f fs =>
        rw [hs] at ih
        simp only [List.length_cons] at ih
        simp [List.count_cons, h, ← ih]

theorem count_dropWhile_le (p : Char → Bool) (c : Char) (l : List Char) :
    (l.dropWhile p).count c ≤ l.count c := by
  conv_rhs => rw [← List.takeWhile_append_dropWhile p l]
  rw [List.count_append]
  exact Nat.le_add_left _ _

theorem mem_of_getLast?_eq {α : Type} {a : α} :
    ∀ {l : List α}, l.getLast? = some a → a ∈ l := by
  intro l
  induction l with
  | nil => intro h; simp at h
  | cons b bs ih =>
    intro h
    cases bs with
    | nil =>
      simp only [List.getLast?_singleton, Option.some.injEq] at h
      simp [h]
    | cons c cs =>
      rw [List.getLast?_cons_cons] at h
      exact List.mem_cons_of_mem _ (ih h)

theorem getLast?_append_of_ne_nil {α : Type} {l₂ : List α} (h : l₂ ≠ []) :
    ∀ l₁ : List α, (l₁ ++ l₂).getLast? = l₂.getLast? := by
  intro l₁
  induction l₁ with
  | nil => rfl
  | cons a as ih =>
    rw [List.cons_append]
    cases hx : as ++ l₂ with
    | nil => exact absurd (List.append_eq_nil.mp hx).2 h
    | cons b bs =>
      rw [List.getLast?_cons_cons, ← hx, ih]

theorem count_tab_pyStrip_lt {l : List Char} (htab : l.getLast? = some '\t') :
    (pyStripChars l).count '\t' < l.count '\t' := by
  have hmem : '\t' ∈ l := mem_of_getLast?_eq htab
  have hpos : 0 < l.count '\t' := List.count_pos_iff.mpr hmem
  unfold pyStripChars
  by_cases hmne : l.dropWhile pyWs = []
  · rw [hmne]
    simpa using hpos
  · have hlast : (l.dropWhile pyWs).getLast? = some '\t' := by
      rw [← getLast?_append_of_ne_nil hmne (l.takeWhile pyWs)]
      rw [List.takeWhile_append_dropWhile]
      exact htab
    have hhead : (l.dropWhile pyWs).reverse.head? = some '\t' := by
      rw [List.head?_reverse]
      exact hlast
    cases hr : (l.dropWhile pyWs).reverse with
    | nil => exact absurd (List.reverse_eq_nil_iff.mp hr) hmne
    | cons y ys =>
      rw [hr] at hhead
      simp only [List.head?_cons, Option.some.injEq] at hhead
      subst hhead
      have hdw : List.dropWhile pyWs ('\t' :: ys) = List.dropWhile pyWs ys := by
        simp [List.dropWhile, pyWs]
      rw [hdw]
      have a1 : ((List.dropWhile pyWs ys).reverse).count '\t'
          = (List.dropWhile pyWs ys).count '\t' := List.count_reverse _ _
      have a2 : (List.dropWhile pyWs ys).count '\t' ≤ ys.count '\t' :=
        count_dropWhile_le pyWs '\t' ys
      have a3 : (('\t' :: ys) : List Char).count '\t' = ys.count '\t' + 1 := by
        simp [List.count_cons]
      have a4 : (('\t' :: ys) : List Char).count '\t'
          = (l.dropWhile pyWs).count '\t' := by
        rw [← hr, List.count_reverse]
      have a5 : (l.dropWhile pyWs).count '\t' ≤ l.count '\t' :=
        count_dropWhile_le pyWs '\t' l
      omega

/-- Claim C10 (implicit): a data line that ends in a tab (so its trailing
field is empty) and whose raw tab-separated field count matches the header
count loses at least that trailing field to `strip()`, so its stripped
field count no longer matches and `generate_content` drops the line: the
single-line stream yields no block. -/
theorem claim_C10 (reg : Registry Transf) (tableName : String)
    (headers : List String) (l : String)
    (hcount : (splitTabChars l.data).length = headers.length)
    (htab : l.data.getLast? = some '\t') :
    (pyStripSplit l).length < headers.length ∧
    generate_content reg [l] headers tableName = [] := by
  have hlt : (pyStripSplit l).length < headers.length := by
    rw [pyStripSplit, List.length_map, splitTabChars_length, ← hcount,
      splitTabChars_length]
    have := count_tab_pyStrip_lt htab
    omega
  refine ⟨hlt, ?_⟩
  rw [generate_content, genLoop_cons, if_pos (Nat.ne_of_lt hlt), genLoop_nil]
  rfl

/-- The trivial registry used by the C10 witness. -/
def c10reg : Registry Transf := fun _ => []

theorem claim_C10_witness :
    (pyStripSplit "1\tAlice\t").length < (["id", "name", "x"] : List String).length ∧
    generate_content c10reg ["1\tAlice\t"] ["id", "name", "x"] "t" = [] :=
  claim_C10 c10reg "t" ["id", "name", "x"] "1\tAlice\t" (by decide) (by decide)

/-! ### Coherence of the two generator variants -/

theorem applyTransformsE_cons (p : String × TransfE)
    (rest : List (String × TransfE)) (d : Row) :
    applyTransformsE (p :: rest) d =
      match dictGet d p.1 with
      | none => applyTransformsE rest d
      | some v =>
        match p.2 v with
        | Except.error e => Except.error e
        | Except.ok w => applyTransformsE rest (dictInsert d p.1 w) := rfl

theorem applyTransformsE_lift :
    ∀ (dt : List (String × Transf)) (d : Row),
      applyTransformsE (dt.map (fun p => (p.1, liftTransf p.2))) d
        = Except.ok (applyTransforms dt d) := by
  intro dt
  induction dt with
  | nil => intro d; rfl
  | cons p rest ih =>
    intro d
    rw [List.map_cons, applyTransformsE_cons, applyTransforms_cons]
    cases hg : dictGet d p.1 with
    | none => exact ih d
    | some v => exact ih (dictInsert d p.1 (p.2 v))

theorem genLoopE_nil (headers : List String) (dtE : List (String × TransfE))
    (data : Block) :
    genLoopE headers dtE [] data
      = (if data.isEmpty then [] else [data], none) := rfl

theorem genLoopE_cons (headers : List String) (dtE : List (String × TransfE))
    (line : String) (rest : List String) (data : Block) :
    genLoopE headers dtE (line :: rest) data =
      if (pyStripSplit line).length ≠ headers.length then
        genLoopE headers dtE rest data
      else
        match applyTransformsE dtE (rowOfFields headers (pyStripSplit line)) with
        | Except.error e => ([], some (data.length, e))
        | Except.ok row =>
          if BLOCK_SIZE ≤ (data ++ [row]).length then
            ((data ++ [row]) :: (genLoopE headers dtE rest []).1,
              (genLoopE headers dtE rest []).2)
          else genLoopE headers dtE rest (data ++ [row]) := rfl

theorem genLoopE_lift (headers : List String) (dt : List (String × Transf)) :
    ∀ (lines : List String) (data : Block),
      genLoopE headers (dt.map (fun p => (p.1, liftTransf p.2))) lines data
        = (genLoop headers dt lines data, none) := by
  intro lines
  induction lines with
  | nil => intro data; rfl
  | cons line rest ih =>
    intro data
    rw [genLoopE_cons, genLoop_cons]
    by_cases h : (pyStripSplit line).length = headers.length
    · have hcond : ¬((pyStripSplit line).length ≠ headers.length) :=
        fun hne => hne h
      rw [if_neg hcond, if_neg hcond, applyTransformsE_lift]
      show (if BLOCK_SIZE ≤
          (data ++ [applyTransforms dt (rowOfFields headers (pyStripSplit line))]).length then
          ((data ++ [applyTransforms dt (rowOfFields headers (pyStripSplit line))])
              :: (genLoopE headers (dt.map (fun p => (p.1, liftTransf p.2))) rest []).1,
            (genLoopE headers (dt.map (fun p => (p.1, liftTransf p.2))) rest []).2)
        else genLoopE headers (dt.map (fun p => (p.1, liftTransf p.2))) rest
          (data ++ [applyTransforms dt (rowOfFields headers (pyStripSplit line))])) = _
      by_cases hb : BLOCK_SIZE ≤
          (data ++ [applyTransforms dt (rowOfFields headers (pyStripSplit line))]).length
      · rw [if_pos hb, if_pos hb, ih]
      · rw [if_neg hb, if_neg hb, ih]
    · rw [if_pos h, if_pos h, ih]

/-- A registry of pure transforms, run through the raising-transform
embedding, yields exactly the pure generator's blocks and no error: the two
embeddings of `generate_content` agree. -/
theorem generate_contentE_lift (reg : Registry Transf) (lines headers : List String)
    (tableName : String) :
    generate_contentE (liftReg reg) lines headers tableName
      = (generate_content reg lines headers tableName, none) := by
  rw [generate_contentE, generate_content]
  have hdt : dataTransfOf (liftReg reg) tableName
      = (dataTransfOf reg tableName).map (fun p => (p.1, liftTransf p.2)) := by
    rw [dataTransfOf, dataTransfOf, liftReg]
    generalize reg tableName = l
    induction l with
    | nil => rfl
    | cons p l ih =>
      rw [List.map_cons]
      cases ht : p.2.transform? with
      | none =>
        rw [List.filterMap_cons_none (transfSel_eq_none ht),
          List.filterMap_cons_none (transfSel_eq_none (by simp [ht]))]
        exact ih
      | some t =>
        rw [List.filterMap_cons_some (transfSel_eq_some ht),
          List.filterMap_cons_some
            (transfSel_eq_some
              (show ((p.1, ColConf.mk p.2.type? (Option.map liftTransf (some t)))
                : String × ColConf TransfE).2.transform? = some (liftTransf t)
                by simp))]
        rw [List.map_cons, ih]
  rw [hdt, genLoopE_lift]

/-! ### File importer (claim C7) and directory importer (claim C8) -/

/-- The registry used by the C7 failing input: table `t` transforms column
`name` by a function that raises on the value `BOOM`. -/
def c7reg : Registry TransfE := fun n =>
  if n = "t" then
    [("name", ColConf.mk none (some (fun v =>
      if v = some "BOOM" then Except.error "bad" else Except.ok v)))]
  else []

/-- Claim C7, evaluated at the failing input: a transform raises while the
second row is being produced, with one row already buffered and no block
yielded yet.  `import_file` catches the error, commits nothing, and still
emits the summary line — but the diagnostic reports `0` entries lost (the
length of the `block` variable, still holding its initial `[]`), although
the generator lost 1 buffered row: the logged number is not the number of
rows in the lost block. -/
theorem claim_C7 :
    (generate_contentE c7reg ["1\tAlice", "2\tBOOM"] ["id", "name"] "t").2
      = some (1, "bad") ∧
    (import_file c7reg (fun _ => none) "t.tsv.gz" "id\tname"
        ["1\tAlice", "2\tBOOM"]).logs
      = [LogEntry.beginFile "t.tsv.gz", LogEntry.buildingTable "t.tsv.gz",
         LogEntry.errorLost 0 "bad", LogEntry.endFile "t.tsv.gz" 0] ∧
    (import_file c7reg (fun _ => none) "t.tsv.gz" "id\tname"
        ["1\tAlice", "2\tBOOM"]).count = 0 ∧
    (import_file c7reg (fun _ => none) "t.tsv.gz" "id\tname"
        ["1\tAlice", "2\tBOOM"]).committed = [] := by
  refine ⟨?_, ?_, ?_, ?_⟩ <;> decide

/-- Claim C8: `import_dir` produces exactly one outcome per entry matching
the `*.tsv.gz` pattern, and every matching regular-file entry is imported —
with its own `import_file` result — no matter how the imports of the other
entries fail (their insert oracles and the registry transforms are
universally quantified, and `import_file` returns normally for all of
them): a failure in one file never aborts processing of subsequent
files. -/
theorem claim_C8 (reg : Registry TransfE) (entries : List DirEntry) :
    ((import_dir reg entries).length
      = (entries.filter (fun e => globMatch e.name)).length) ∧
    (∀ e ∈ entries, globMatch e.name = true → e.isFile = true →
      DirOutcome.imported e.name
          (import_file reg e.insertErr e.name e.headerLine e.dataLines)
        ∈ import_dir reg entries) := by
  constructor
  · rw [import_dir, List.length_map]
  · intro e he hmatch hfile
    rw [import_dir]
    have hef : e ∈ entries.filter (fun e => globMatch e.name) :=
      List.mem_filter.mpr ⟨he, hmatch⟩
    have hmap := List.mem_map_of_mem
      (fun e => if e.isFile then
          DirOutcome.imported e.name
            (import_file reg e.insertErr e.name e.headerLine e.dataLines)
        else DirOutcome.skipped e.name) hef
    simpa [hfile] using hmap

/-- Directory entries for the C8 witness: the first file's inserts always
fail; the second entry is imported anyway. -/
def c8bad : DirEntry :=
  DirEntry.mk "a.tsv.gz" true "id" ["1"] (fun _ => some "down")

/-- The second, healthy entry of the C8 witness. -/
def c8good : DirEntry :=
  DirEntry.mk "b.tsv.gz" true "id" ["2"] (fun _ => none)

/-- The empty registry used by the C8 witness. -/
def c8reg : Registry TransfE := fun _ => []

theorem claim_C8_witness :
    DirOutcome.imported c8good.name
        (import_file c8reg c8good.insertErr c8good.name c8good.headerLine
          c8good.dataLines)
      ∈ import_dir c8reg [c8bad, c8good] :=
  (claim_C8 c8reg [c8bad, c8good]).2 c8good
    (List.mem_cons_of_mem _ (List.mem_cons_self _ _)) (by decide) rfl

end S32
